import Mathlib

/-!
Verification development for the scikit-xray masking and core utilities.

This file gives a shallow embedding, in Lean 4, of the functions the
claims are about:

* `ring_blur_mask` (src/skbeam/core/mask.py, lines 135-193), embedded as
  `ringBlurMask` over flat row-major rational arrays.  `np.std` takes a
  square root, which is not a computable operation on `ℚ`; it is modelled
  by an explicit parameter `sqrtFn : ℚ → ℚ` applied to the (computable)
  population variance, exactly where `np.std` applies `np.sqrt`.
  Floating-point NaN (the value scipy's `binned_statistic` returns for an
  empty bin, for which every `<`/`>` comparison is False) is modelled by
  `Option ℚ` with `none` for NaN.
* `mask_edge` (mask.py, lines 115-132), embedded as `maskEdge` with an
  explicit model `pySliceBounds` of the Python slice `edge_size:-edge_size`.
* the `while not it.finished` loop of `detector2D_to_1D`
  (src/nsls2/core.py, lines 270-290), embedded as the fuel-indexed runner
  `detRun` over an explicit loop state.
* the descent loop of `MD_dict.__setitem__` (src/nsls2/core.py, lines
  125-141), embedded as `setPath` over a model `PyVal` of the Python
  values involved (md_value leaves, MD_dict instances, plain dicts).
-/

attribute [local semireducible] Rat.add Rat.mul Rat.sub Rat.inv Rat.ofScientific

deriving instance DecidableEq for Except

namespace SkxRay

/-- NaN-aware rational: `none` models IEEE NaN as produced by
`scipy.stats.binned_statistic` on empty bins. -/
abbrev OQ := Option ℚ

/-- NaN-propagating addition (numpy elementwise `+`). -/
def oAdd : OQ → OQ → OQ
  | some a, some b => some (a + b)
  | _, _ => none

/-- NaN-propagating subtraction (numpy elementwise `-`). -/
def oSub : OQ → OQ → OQ
  | some a, some b => some (a - b)
  | _, _ => none

/-- NaN-propagating multiplication (numpy elementwise `*`). -/
def oMul : OQ → OQ → OQ
  | some a, some b => some (a * b)
  | _, _ => none

/-- `x < y` for a possibly-NaN right operand: any comparison with NaN
is False in IEEE arithmetic. -/
def oLt (x : ℚ) : OQ → Bool
  | some y => decide (x < y)
  | none => false

/-- `x > y` for a possibly-NaN right operand. -/
def oGt (x : ℚ) : OQ → Bool
  | some y => decide (y < x)
  | none => false

/-- Arithmetic mean of a list of rationals (`0` on the empty list; all
uses are guarded by an emptiness test, mirroring NaN for empty bins). -/
def meanOf (l : List ℚ) : ℚ := l.sum / l.length

/-- Population variance (`np.std` squared, `ddof = 0`). -/
def varOf (l : List ℚ) : ℚ := ((l.map fun x => (x - meanOf l) * (x - meanOf l)).sum) / l.length

/-- Bin index assigned by `scipy.stats.binned_statistic` for edge list
`edges`: half-open bins `edges[i] <= x < edges[i+1]`, except that the
last bin also includes its right edge; values outside `[edges[0],
edges[-1]]` are ignored (`none`). -/
def binnedIdx (edges : List ℚ) (x : ℚ) : Option Nat :=
  let n := edges.length - 1
  if edges.length < 2 then none
  else if x < edges.getD 0 0 ∨ edges.getD n 0 < x then none
  else if edges.getD n 0 ≤ x then some (n - 1)
  else ((List.range n).filter fun i =>
    decide (edges.getD i 0 ≤ x ∧ x < edges.getD (i + 1) 0)).head?

/-- The sample values falling into statistic bin `j`:
`binned_statistic(xs, ys, bins=edges)` groups `ys` by the bin of the
corresponding `xs` entry. -/
def binnedVals (edges : List ℚ) (xs ys : List ℚ) (j : Nat) : List ℚ :=
  (xs.zip ys).filterMap fun p => if binnedIdx edges p.1 = some j then some p.2 else none

/-- `binned_statistic(xs, ys, bins=edges, statistic='mean')`: per-bin
mean, NaN (`none`) on empty bins. -/
def binnedMean (edges : List ℚ) (xs ys : List ℚ) : List OQ :=
  (List.range (edges.length - 1)).map fun j =>
    let m := binnedVals edges xs ys j
    if m.isEmpty then none else some (meanOf m)

/-- `binned_statistic(..., statistic=np.std)` before the square root:
per-bin population variance, NaN on empty bins. -/
def binnedVar (edges : List ℚ) (xs ys : List ℚ) : List OQ :=
  (List.range (edges.length - 1)).map fun j =>
    let m := binnedVals edges xs ys j
    if m.isEmpty then none else some (varOf m)

/-- `binned_statistic(..., statistic=np.std)`: `np.std` is the square
root of the population variance; the square root on `ℚ` is supplied as
`sqrtFn`. -/
def binnedStd (sqrtFn : ℚ → ℚ) (edges : List ℚ) (xs ys : List ℚ) : List OQ :=
  (binnedVar edges xs ys).map (Option.map sqrtFn)

/-- `np.linspace lo hi n` over `ℚ`. -/
def linspaceQ (lo hi : ℚ) (n : Nat) : List ℚ :=
  if n = 1 then [lo]
  else (List.range n).map fun i : Nat => lo + (hi - lo) * (i : ℚ) / ((n : ℚ) - 1)

/-- Errors `ring_blur_mask` can raise: the `ValueError` from
`mask.reshape(img.shape)` on an element-count mismatch, the numpy
broadcast `ValueError` (carrying the two operand lengths) from
elementwise arithmetic on incompatible 1-D shapes, and the `IndexError`
from fancy indexing with an out-of-bounds index. -/
inductive RbmErr where
  | reshapeErr : RbmErr
  | broadcastErr (m n : Nat) : RbmErr
  | indexErr : RbmErr
deriving DecidableEq

/-- numpy elementwise binary operation on two 1-D arrays with
broadcasting: equal lengths act pointwise, a length-1 operand is
stretched, anything else is a broadcast `ValueError`. -/
def bcast2 (f : OQ → OQ → OQ) (xs ys : List OQ) : Except RbmErr (List OQ) :=
  if xs.length = ys.length then .ok (List.zipWith f xs ys)
  else if xs.length = 1 then .ok (ys.map (f (xs.getD 0 none)))
  else if ys.length = 1 then .ok (xs.map fun x => f x (ys.getD 0 none))
  else .error (.broadcastErr xs.length ys.length)

/-- The `alpha` argument of `ring_blur_mask`: a scalar, a 2-tuple
(`type(alpha) is tuple` in the source), or a sequence. -/
inductive AlphaSpec where
  | scalar (a : ℚ) : AlphaSpec
  | tuple2 (lo hi : ℚ) : AlphaSpec
  | arr (vals : List ℚ) : AlphaSpec

/-- `threshold = alpha * std` after the tuple case has been replaced by
`np.linspace(alpha[0], alpha[1], len(std))` (mask.py lines 182-184). -/
def rbmThreshold (alpha : AlphaSpec) (std : List OQ) : Except RbmErr (List OQ) :=
  match alpha with
  | .scalar a => .ok (std.map (oMul (some a)))
  | .tuple2 lo hi => bcast2 oMul ((linspaceQ lo hi std.length).map some) std
  | .arr vals => bcast2 oMul (vals.map some) std

/-- Whether integer index `i` is valid for a numpy 1-D array of length
`n` (negative indices count from the end). -/
def pyIdxOk (n : Nat) (i : Int) : Bool := decide (-(n : Int) ≤ i ∧ i < (n : Int))

/-- numpy indexing of a 1-D array at a possibly negative index, assuming
`pyIdxOk`. -/
def pyGet (l : List OQ) (i : Int) : OQ :=
  if i < 0 then l.getD (i + l.length).toNat none else l.getD i.toNat none

/-- A 2-D array stored flat in row-major (C) order, as numpy does. -/
structure Arr2 (α : Type) where
  rows : Nat
  cols : Nat
  data : List α
deriving DecidableEq

/-- `np.ones(shape).astype(bool)`: the default all-true starting mask
(mask.py lines 166-167). -/
def allTrue (r c : Nat) : Arr2 Bool := ⟨r, c, List.replicate (r * c) true⟩

/-- Lines 166-169 of mask.py: default the mask to all ones, then
`mask = mask.reshape(img.shape)` when its shape differs — numpy `reshape`
succeeds exactly when the element counts agree (reinterpreting the same
row-major buffer) and raises `ValueError` otherwise. -/
def rbmCombinedMask (img : Arr2 ℚ) (mask? : Option (Arr2 Bool)) : Except RbmErr (Arr2 Bool) :=
  let m := mask?.getD (allTrue img.rows img.cols)
  if m.rows = img.rows ∧ m.cols = img.cols then .ok m
  else if m.rows * m.cols = img.rows * img.cols then .ok ⟨img.rows, img.cols, m.data⟩
  else .error .reshapeErr

/-- Boolean-mask indexing `vals[mask]`: keep the entries whose mask bit
is true, in order (mask.py lines 170-171). -/
def maskFilter {α : Type} (vals : List α) (m : List Bool) : List α :=
  (vals.zip m).filterMap fun p => if p.2 then some p.1 else none

/-- Lines 173-176 of mask.py: `int_q` starts as `np.zeros(q.shape)` and
each loop iteration `i` writes `i - 1` where `bins[i] <= q < bins[i+1]`;
a pixel matching no iteration keeps the initial `0`. -/
def intQ (bins : List ℚ) (x : ℚ) : Int :=
  (List.range (bins.length - 1)).foldl
    (fun acc i => if bins.getD i 0 ≤ x ∧ x < bins.getD (i + 1) 0 then (i : Int) - 1 else acc) 0

/-- `too_low = img < lower[int_q]` (mask.py line 189), pixelwise over the
full image. -/
def tooLowList (imgD : List ℚ) (intq : List Int) (lower : List OQ) : List Bool :=
  List.zipWith (fun v i => oLt v (pyGet lower i)) imgD intq

/-- `too_hi = img > upper[int_q]` (mask.py line 190). -/
def tooHighList (imgD : List ℚ) (intq : List Int) (upper : List OQ) : List Bool :=
  List.zipWith (fun v i => oGt v (pyGet upper i)) imgD intq

/-- Three-list `zipWith`, truncating at the shortest list. -/
def zipWith3 {α β γ δ : Type} (f : α → β → γ → δ) : List α → List β → List γ → List δ
  | a :: ta, b :: tb, c :: tc => f a b c :: zipWith3 f ta tb tc
  | _, _, _ => []

/-- Lines 182-193 of mask.py, after the per-bin mean and std have been
computed: build `threshold`, `lower`, `upper`, fancy-index them with
`int_q` (every index must be in range or numpy raises `IndexError`), and
return `mask * ~too_low * ~too_hi` as booleans of the image's shape. -/
def rbmWithStats (img q : Arr2 ℚ) (alpha : AlphaSpec) (bins : List ℚ) (mask1 : Arr2 Bool)
    (mean std : List OQ) : Except RbmErr (Arr2 Bool) :=
  match rbmThreshold alpha std with
  | .error e => .error e
  | .ok threshold =>
    match bcast2 oSub mean threshold with
    | .error e => .error e
    | .ok lower =>
      match bcast2 oAdd mean threshold with
      | .error e => .error e
      | .ok upper =>
        if ((q.data.map (intQ bins)).all fun i => pyIdxOk lower.length i) ∧
            ((q.data.map (intQ bins)).all fun i => pyIdxOk upper.length i) then
          .ok ⟨img.rows, img.cols,
            zipWith3 (fun m l h => m && !l && !h) mask1.data
              (tooLowList img.data (q.data.map (intQ bins)) lower)
              (tooHighList img.data (q.data.map (intQ bins)) upper)⟩
        else .error .indexErr

/-- `ring_blur_mask(img, q, alpha, bins, mask)` (mask.py lines 135-193):
default/reshape the mask, filter `msk_img = img[mask]` and
`msk_q = q[mask]`, compute the per-bin mean and std with
`binned_statistic(msk_q, msk_img, bins=bins[1:])` — note the dropped
first edge — and threshold the full image. -/
def ringBlurMask (sqrtFn : ℚ → ℚ) (img q : Arr2 ℚ) (alpha : AlphaSpec) (bins : List ℚ)
    (mask? : Option (Arr2 Bool)) : Except RbmErr (Arr2 Bool) :=
  match rbmCombinedMask img mask? with
  | .error e => .error e
  | .ok mask1 =>
    rbmWithStats img q alpha bins mask1
      (binnedMean (bins.drop 1) (maskFilter q.data mask1.data) (maskFilter img.data mask1.data))
      (binnedStd sqrtFn (bins.drop 1) (maskFilter q.data mask1.data) (maskFilter img.data mask1.data))

/-- Modelled from the spec (RingStatisticsMasker, section 4.4): the valid
masked intensities of ring `i`, the pixels with `bins[i] <= q < bins[i+1]`
whose mask bit is true.  Used only to compare the code's thresholding
statistics with the per-ring statistics the spec prescribes. -/
def specRingVals (imgD qD : List ℚ) (maskD : List Bool) (bins : List ℚ) (i : Nat) : List ℚ :=
  ((imgD.zip qD).zip maskD).filterMap fun p =>
    if p.2 ∧ bins.getD i 0 ≤ p.1.2 ∧ p.1.2 < bins.getD (i + 1) 0 then some p.1.1 else none

/-- Modelled from the spec (testable property on `refine_mask`): every
valid pixel already lies within `mean[ring] ± alpha * std[ring]` of its
own ring.  Stated with both sides squared, which is equivalent for
`0 ≤ alpha` since `std = sqrt(var) ≥ 0`, and avoids the square root. -/
def WithinOwnRingSq (imgD qD : List ℚ) (maskD : List Bool) (bins : List ℚ) (alpha : ℚ) : Prop :=
  ∀ i, i < bins.length - 1 → ∀ x ∈ specRingVals imgD qD maskD bins i,
    (x - meanOf (specRingVals imgD qD maskD bins i)) *
      (x - meanOf (specRingVals imgD qD maskD bins i)) ≤
    alpha * alpha * varOf (specRingVals imgD qD maskD bins i)

/-- The Python slice `e:-e` on an axis of length `n`, as a half-open
index interval: the start clamps to `n`; the stop literal `-e` is `0`
when `e = 0` (so the slice is empty) and counts from the end otherwise,
clamping at `0`. -/
def pySliceBounds (n e : Nat) : Nat × Nat := (min e n, if e = 0 then 0 else n - e)

/-- `mask_edge(img_shape, edge_size)` (mask.py lines 115-132):
`np.zeros(img_shape, dtype=bool)` with
`mask[edge_size:-edge_size, edge_size:-edge_size] = True`, stored
row-major. -/
def maskEdge (rows cols e : Nat) : Arr2 Bool :=
  ⟨rows, cols, (List.range (rows * cols)).map fun idx =>
    decide ((pySliceBounds rows e).1 ≤ idx / cols ∧ idx / cols < (pySliceBounds rows e).2 ∧
      (pySliceBounds cols e).1 ≤ idx % cols ∧ idx % cols < (pySliceBounds cols e).2)⟩

/-- Element `(i, j)` of a row-major boolean array (False outside the
stored data, which never happens for in-range indices of a well-formed
array). -/
def at2 (m : Arr2 Bool) (i j : Nat) : Bool := m.data.getD (i * m.cols + j) false

/-- The only error the `detector2D_to_1D` loop can raise: the
`IndexError` from `flat[counter] = ...` once `counter` reaches
`len(flat)`. -/
inductive DetErr where
  | indexError : DetErr
deriving DecidableEq

/-- State of the `while not it.finished` loop of `detector2D_to_1D`
(core.py lines 277-290): the `counter` variable and the `flat` list.
The `np.nditer` position is not part of the state because the body never
calls `it.iternext()`; the iterator stays at multi-index `(0, 0)` and
`it.finished` keeps its initial value. -/
structure DetState where
  counter : Nat
  flat : List (Option (Int × Int × ℚ))
deriving DecidableEq

/-- `flat = [None] * (img.shape[0] * img.shape[1]); counter = 0`
(core.py lines 277-279). -/
def detInit (img : Arr2 ℚ) : DetState := ⟨0, List.replicate (img.rows * img.cols) none⟩

/-- Fuel-indexed run of the loop of `detector2D_to_1D`: `none` means the
loop is still running after `fuel` iterations.  Each iteration re-tests
`it.finished` (true iff the image has zero pixels, and never changed
since `it.iternext()` is never called), then executes the body: the list
assignment `flat[counter] = (0 - center[0], 0 - center[1], img[0, 0])`
raises `IndexError` once `counter == len(flat)`, else stores the tuple
and increments `counter`. -/
def detRun (img : Arr2 ℚ) (cr cc : Int) : Nat → DetState → Option (Except DetErr (List (Option (Int × Int × ℚ))))
  | 0, _ => none
  | fuel + 1, s =>
    if img.rows * img.cols = 0 then some (.ok s.flat)
    else if s.counter < s.flat.length then
      detRun img cr cc fuel
        ⟨s.counter + 1, s.flat.set s.counter (some (0 - cr, 0 - cc, img.data.getD 0 0))⟩
    else some (.error .indexError)

/-- Python values reachable in the `MD_dict.__setitem__` descent loop
(core.py lines 125-141), with the leaf payload abstracted as `V`:
an `md_value` leaf, an `MD_dict` instance wrapping its `_dict`
attribute, or a plain dict of entries. -/
inductive PyVal (V : Type) where
  | mdval (v : V) : PyVal V
  | mdDictInst (d : PyVal V) : PyVal V
  | pydict (entries : List (String × PyVal V)) : PyVal V

/-- Key lookup in a Python dict modelled as an ordered association list. -/
def pyLookup {V : Type} (k : String) : List (String × PyVal V) → Option (PyVal V)
  | [] => none
  | (k', v) :: t => if k' = k then some v else pyLookup k t

/-- Python dict assignment `d[k] = v`: replace in place if the key
exists, else append. -/
def insertKV {V : Type} : List (String × PyVal V) → String → PyVal V → List (String × PyVal V)
  | [], k, v => [(k, v)]
  | (k', v') :: t, k, v => if k' = k then (k, v) :: t else (k', v') :: insertKV t k v

/-- Errors of the `__setitem__` descent: the `KeyError("trying to use a
leaf node as a branch")` guard, and a model artifact for descending into
a malformed `MD_dict` whose `_dict` is not a dict (unreachable from
well-formed states). -/
inductive MDErr where
  | leafAsBranch : MDErr
  | notADict : MDErr
deriving DecidableEq

/-- After the loop body has produced the updated child dict, the parent
dict holds the mutated `MD_dict` under `k` (mutation through the shared
reference, rendered functionally); a failure propagates. -/
def wrapChild {V : Type} (tmp : List (String × PyVal V)) (k : String)
    (r : Except MDErr (List (String × PyVal V))) : Except MDErr (List (String × PyVal V)) :=
  match r with
  | .ok inner => .ok (insertKV tmp k (.mdDictInst (.pydict inner)))
  | .error e => .error e

/-- The loop of `MD_dict.__setitem__` (core.py lines 125-141) over the
already-split key: for each intermediate key `k`, `try: tmp = tmp[k]._dict`
— the attribute access succeeds only on an `MD_dict` instance; on a
missing key (`KeyError` from `tmp[k]`) or any value without a `_dict`
attribute (`AttributeError`, in particular on an `md_value` leaf) the
bare `except:` runs `tmp[k] = type(self)()` and descends into the fresh
empty dict — then `if isinstance(tmp, md_value): raise KeyError(...)`.
The final key is assigned the (already coerced) value. -/
def setPath {V : Type} : List (String × PyVal V) → List String → String → PyVal V →
    Except MDErr (List (String × PyVal V))
  | tmp, [], last, v => .ok (insertKV tmp last v)
  | tmp, k :: ks, last, v =>
    match pyLookup k tmp with
    | some (.mdDictInst (.mdval _)) => .error .leafAsBranch
    | some (.mdDictInst (.pydict inner)) => wrapChild tmp k (setPath inner ks last v)
    | some (.mdDictInst (.mdDictInst _)) => .error .notADict
    | some (.mdval _) => wrapChild tmp k (setPath ([] : List (String × PyVal V)) ks last v)
    | some (.pydict _) => wrapChild tmp k (setPath ([] : List (String × PyVal V)) ks last v)
    | none => wrapChild tmp k (setPath ([] : List (String × PyVal V)) ks last v)

/-- Well-formed dict entries: every value stored through the class's own
operations is either an `md_value` leaf or an `MD_dict` instance whose
`_dict` is a well-formed plain dict. -/
inductive WFE {V : Type} : PyVal V → Prop where
  | leaf (v : V) : WFE (.mdval v)
  | branch (l : List (String × PyVal V)) : (∀ p ∈ l, WFE p.2) → WFE (.mdDictInst (.pydict l))

/-- A well-formed `_dict`: every stored value is well-formed. -/
def WFList {V : Type} (l : List (String × PyVal V)) : Prop := ∀ p ∈ l, WFE p.2

/-- `np.linspace` over `ℚ` returns exactly `n` samples. -/
theorem linspaceQ_length (lo hi : ℚ) (n : Nat) : (linspaceQ lo hi n).length = n := by
  unfold linspaceQ
  split
  · simp [*]
  · rw [List.length_map, List.length_range]

/-- C3 counterexample: a starting mask of shape `(1, 4)` against an image
of shape `(2, 2)` — the shapes differ, yet `ring_blur_mask` raises no
shape-mismatch error and returns a mask: line 169 of mask.py silently
reshapes the equal-sized buffer. -/
theorem ring_blur_mask_silent_reshape_cex :
    ringBlurMask (fun _ => 0) ⟨2, 2, [0, 0, 0, 0]⟩ ⟨2, 2, [1, 1, 3, 3]⟩ (.scalar 1) [0, 2, 4, 6]
      (some ⟨1, 4, [true, true, true, true]⟩) = .ok ⟨2, 2, [true, true, true, true]⟩ := by
  decide

/-- C3 (amended): a mask whose shape differs from the image's is
silently reshaped (same row-major buffer, image's shape) when the
element counts agree, and only an element-count mismatch raises the
reshape `ValueError`. -/
theorem rbm_combined_mask_reshape (img : Arr2 ℚ) (mask : Arr2 Bool)
    (hne : ¬(mask.rows = img.rows ∧ mask.cols = img.cols)) :
    (mask.rows * mask.cols = img.rows * img.cols →
      rbmCombinedMask img (some mask) = .ok ⟨img.rows, img.cols, mask.data⟩) ∧
    (mask.rows * mask.cols ≠ img.rows * img.cols →
      rbmCombinedMask img (some mask) = .error .reshapeErr) := by
  unfold rbmCombinedMask
  constructor
  · intro hsz
    simp [hne, hsz]
  · intro hsz
    simp [hne, hsz]

/-- C3 witness: the amended behaviour at the counterexample's input. -/
theorem rbm_combined_mask_reshape_witness :
    ¬((1 : Nat) = 2 ∧ (4 : Nat) = 2) ∧
    rbmCombinedMask ⟨2, 2, [0, 0, 0, 0]⟩ (some ⟨1, 4, [true, true, true, true]⟩)
      = .ok ⟨2, 2, [true, true, true, true]⟩ :=
  ⟨by decide,
    (rbm_combined_mask_reshape ⟨2, 2, [0, 0, 0, 0]⟩ ⟨1, 4, [true, true, true, true]⟩
      (by decide)).1 (by decide)⟩

/-- C5 counterexample: `alpha = [1, 1]`, a sequence whose length (2) does
not match the number of rings (3, for the four edges `[0, 2, 4, 6]`) and
is neither a scalar nor a tuple — the claim requires a failure, but the
code succeeds, because the statistics arrays have length
`len(bins) - 2 = 2`, not `len(bins) - 1`. -/
theorem ring_blur_alpha_two_list_accepted_cex :
    ringBlurMask (fun _ => 0) ⟨1, 2, [0, 0]⟩ ⟨1, 2, [3, 5]⟩ (.arr [1, 1]) [0, 2, 4, 6] none
      = .ok ⟨1, 2, [true, true]⟩ := by
  decide

/-- C5 (amended): a sequence `alpha` multiplies the length-`len(bins)-2`
std array elementwise, so it fails — with numpy's broadcast error naming
the two operand lengths — exactly when its length differs from
`len(std)` and neither operand has length 1; a sequence matching
`len(std) = len(bins) - 2` succeeds; a 2-tuple is expanded to
`np.linspace(lo, hi, len(std))` and always succeeds. -/
theorem rbm_threshold_shapes (vals vals2 : List ℚ) (std : List OQ) (lo hi : ℚ) :
    (vals.length ≠ std.length → vals.length ≠ 1 → std.length ≠ 1 →
      rbmThreshold (.arr vals) std = .error (.broadcastErr vals.length std.length)) ∧
    (vals2.length = std.length →
      rbmThreshold (.arr vals2) std = .ok (List.zipWith oMul (vals2.map some) std)) ∧
    rbmThreshold (.tuple2 lo hi) std
      = .ok (List.zipWith oMul ((linspaceQ lo hi std.length).map some) std) := by
  refine ⟨fun h1 h2 h3 => ?_, fun h => ?_, ?_⟩
  · unfold rbmThreshold bcast2
    simp only [List.length_map]
    rw [if_neg h1, if_neg h2, if_neg h3]
  · unfold rbmThreshold bcast2
    simp only [List.length_map]
    rw [if_pos h]
  · unfold rbmThreshold bcast2
    simp [List.length_map, linspaceQ_length]

/-- Closed form for one entry of the row-major `maskEdge` array. -/
theorem maskEdge_at (rows cols e i j : Nat) (hi : i < rows) (hj : j < cols) :
    at2 (maskEdge rows cols e) i j =
      decide ((pySliceBounds rows e).1 ≤ i ∧ i < (pySliceBounds rows e).2 ∧
        (pySliceBounds cols e).1 ≤ j ∧ j < (pySliceBounds cols e).2) := by
  have hcols : 0 < cols := by omega
  have hidx : i * cols + j < rows * cols := by
    have h1 : i * cols + j < (i + 1) * cols := by
      have : (i + 1) * cols = i * cols + cols := by ring
      omega
    have h2 : (i + 1) * cols ≤ rows * cols := Nat.mul_le_mul_right cols hi
    omega
  have hdiv : (i * cols + j) / cols = i := by
    rw [Nat.mul_comm i cols, Nat.mul_add_div hcols, Nat.div_eq_of_lt hj]
    omega
  have hmod : (i * cols + j) % cols = j := by
    rw [Nat.mul_comm i cols, Nat.mul_add_mod, Nat.mod_eq_of_lt hj]
  unfold at2 maskEdge
  simp only []
  rw [List.getD_eq_getElem _ _ (by simpa using hidx)]
  simp only [List.getElem_map, List.getElem_range, hdiv, hmod]

/-- C10: `mask_edge` with `edge_size = 0` marks every pixel bad (the
slice `0:-0` is `0:0`, empty), and for `edge_size > 0` a pixel is kept
exactly when it is at least `edge_size` away from every border. -/
theorem mask_edge_zero_and_interior (rows cols e i j : Nat) (hi : i < rows) (hj : j < cols) :
    at2 (maskEdge rows cols 0) i j = false ∧
    (0 < e → (at2 (maskEdge rows cols e) i j = true ↔
      e ≤ i ∧ i + e < rows ∧ e ≤ j ∧ j + e < cols)) := by
  constructor
  · rw [maskEdge_at rows cols 0 i j hi hj]
    simp [pySliceBounds]
  · intro he
    rw [maskEdge_at rows cols e i j hi hj]
    have h0 : ¬(e = 0) := by omega
    simp only [pySliceBounds, decide_eq_true_eq, if_neg h0]
    omega

/-- C10 witness: a 3×3 image at the centre pixel. -/
theorem mask_edge_zero_and_interior_witness :
    at2 (maskEdge 3 3 0) 1 1 = false ∧
    (at2 (maskEdge 3 3 1) 1 1 = true ↔ (1 ≤ 1 ∧ 1 + 1 < 3 ∧ 1 ≤ 1 ∧ 1 + 1 < 3)) := by
  have h := mask_edge_zero_and_interior 3 3 1 1 1 (by decide) (by decide)
  exact ⟨h.1, h.2 (by decide)⟩

/-- A fold of an if-then-else step over indices none of which satisfy the
guard leaves the accumulator unchanged. -/
theorem foldl_if_skip {P : Nat → Prop} [DecidablePred P] (g : Nat → Int) :
    ∀ (l : List Nat) (acc : Int), (∀ j ∈ l, ¬ P j) →
      l.foldl (fun a j => if P j then g j else a) acc = acc := by
  intro l
  induction l with
  | nil => intro acc _; rfl
  | cons a t ih =>
    intro acc hno
    simp only [List.foldl_cons]
    rw [if_neg (hno a (List.mem_cons_self a t))]
    exact ih acc fun j hj => hno j (List.mem_cons_of_mem a hj)

/-- When exactly the loop iteration `i` of the `int_q` loop matches `x`,
the final array entry is the value `i - 1` written by that iteration. -/
theorem intQ_eval_unique (bins : List ℚ) (x : ℚ) (i : Nat) (hi : i < bins.length - 1)
    (hyes : bins.getD i 0 ≤ x ∧ x < bins.getD (i + 1) 0)
    (hno : ∀ j, j < bins.length - 1 → j ≠ i → ¬(bins.getD j 0 ≤ x ∧ x < bins.getD (j + 1) 0)) :
    intQ bins x = (i : Int) - 1 := by
  unfold intQ
  have hsplit : List.range (bins.length - 1)
      = (List.range i ++ [i]) ++ (List.range (bins.length - 1 - (i + 1))).map ((i + 1) + ·) := by
    rw [← List.range_succ, ← List.range_add]
    congr 1
    omega
  rw [hsplit, List.foldl_append, List.foldl_append]
  rw [foldl_if_skip _ (List.range i) 0 fun j hj =>
    hno j (by have := List.mem_range.mp hj; omega) (by have := List.mem_range.mp hj; omega)]
  simp only [List.foldl_cons, List.foldl_nil]
  rw [if_pos hyes]
  apply foldl_if_skip
  intro j hj
  simp only [List.mem_map, List.mem_range] at hj
  obtain ⟨t, ht, rfl⟩ := hj
  exact hno _ (by omega) (by omega)

/-- C6: with strictly ascending bin edges, a pixel whose `q` value equals
the lower edge `bins[i]` of bin `i` is assigned ring index `i - 1` by the
`int_q` loop (lines 173-176 of mask.py), not `i`. -/
theorem int_q_lower_edge_off_by_one (bins : List ℚ) (i : Nat)
    (hasc : List.Pairwise (· < ·) bins) (hi : i + 1 < bins.length) :
    intQ bins (bins.getD i 0) = (i : Int) - 1 := by
  have hmono : ∀ a b : Nat, a < b → b < bins.length → bins.getD a 0 < bins.getD b 0 := by
    intro a b hab hb
    rw [List.getD_eq_getElem _ _ (by omega), List.getD_eq_getElem _ _ hb]
    exact List.pairwise_iff_getElem.mp hasc a b (by omega) hb hab
  apply intQ_eval_unique
  · omega
  · exact ⟨le_refl _, hmono i (i + 1) (by omega) hi⟩
  · intro j hj hne
    rcases Nat.lt_or_ge j i with hlt | hge
    · intro hcon
      have hle : bins.getD (j + 1) 0 ≤ bins.getD i 0 := by
        rcases Nat.eq_or_lt_of_le (Nat.succ_le_of_lt hlt) with heq | hlt2
        · rw [show j + 1 = i from heq]
        · exact le_of_lt (hmono (j + 1) i hlt2 (by omega))
      exact absurd hcon.2 (not_lt.mpr hle)
    · have hgt : i < j := by omega
      intro hcon
      have hlt : bins.getD i 0 < bins.getD j 0 := hmono i j hgt (by omega)
      exact absurd hcon.1 (not_le.mpr hlt)

/-- C6 witness: edges `[0, 2, 4, 6]` at `i = 1`; the pixel with
`q = bins[1] = 2` lands in ring index `0 = 1 - 1`. -/
theorem int_q_lower_edge_off_by_one_witness :
    List.Pairwise (· < ·) ([0, 2, 4, 6] : List ℚ) ∧
    intQ [0, 2, 4, 6] (([0, 2, 4, 6] : List ℚ).getD 1 0) = (1 : Int) - 1 :=
  ⟨by decide, int_q_lower_edge_off_by_one [0, 2, 4, 6] 1 (by decide) (by decide)⟩

/-- C5 witness: the three amended behaviours at concrete inputs. -/
theorem rbm_threshold_shapes_witness :
    rbmThreshold (.arr [1, 1, 1]) [some 0, some 1] = .error (.broadcastErr 3 2) ∧
    rbmThreshold (.arr [2, 3]) [some 0, some 1] = .ok [some 0, some 3] ∧
    rbmThreshold (.tuple2 1 2) [some 0, some 1] = .ok [some 0, some 2] := by
  have h := rbm_threshold_shapes [1, 1, 1] [2, 3] [some 0, some 1] 1 2
  refine ⟨h.1 (by decide) (by decide) (by decide), ?_, ?_⟩
  · rw [h.2.1 (by decide)]
    decide
  · rw [h.2.2]
    decide

/-- With at least one pixel, no fuel makes the detector loop return
normally: `it.finished` stays false forever. -/
theorem detRun_no_ok (img : Arr2 ℚ) (cr cc : Int) (hpix : 0 < img.rows * img.cols) :
    ∀ (fuel : Nat) (s : DetState) (res : List (Option (Int × Int × ℚ))),
      detRun img cr cc fuel s ≠ some (.ok res) := by
  intro fuel
  induction fuel with
  | zero =>
    intro s res h
    exact Option.noConfusion h
  | succ n ih =>
    intro s res h
    unfold detRun at h
    rw [if_neg (by omega)] at h
    split at h
    · exact ih _ _ h
    · simp at h

/-- With at least one pixel, enough fuel always drives the loop into the
out-of-range list assignment: the run ends in `IndexError`. -/
theorem detRun_raises (img : Arr2 ℚ) (cr cc : Int) (hpix : 0 < img.rows * img.cols) :
    ∀ (fuel : Nat) (s : DetState), s.flat.length - s.counter + 1 ≤ fuel →
      detRun img cr cc fuel s = some (.error .indexError) := by
  intro fuel
  induction fuel with
  | zero =>
    intro s hle
    omega
  | succ n ih =>
    intro s hle
    unfold detRun
    rw [if_neg (by omega)]
    split
    · apply ih
      simp only [List.length_set]
      omega
    · rfl

/-- C8 counterexample: on a 1×1 image the loop run is not endless — two
iterations in, the list assignment `flat[1]` raises `IndexError` and the
run produces a result, refuting nontermination at this input. -/
theorem det_loop_indexerror_cex :
    detRun ⟨1, 1, [5]⟩ 0 0 2 (detInit ⟨1, 1, [5]⟩) = some (.error .indexError) := by
  decide

/-- C8 (amended): for every image with at least one pixel the loop never
returns normally (the iterator is never advanced, so `it.finished` never
becomes true), but it does terminate: after `rows*cols` successful
writes, the next `flat[counter]` assignment raises `IndexError`. -/
theorem det_loop_never_returns (img : Arr2 ℚ) (cr cc : Int) (hpix : 0 < img.rows * img.cols) :
    detRun img cr cc (img.rows * img.cols + 1) (detInit img) = some (.error .indexError) ∧
    ∀ (fuel : Nat) (res : List (Option (Int × Int × ℚ))),
      detRun img cr cc fuel (detInit img) ≠ some (.ok res) := by
  constructor
  · apply detRun_raises img cr cc hpix
    simp [detInit]
  · intro fuel res
    exact detRun_no_ok img cr cc hpix fuel _ res

/-- C8 witness: the amended behaviour at the 1×1 image. -/
theorem det_loop_never_returns_witness :
    0 < (1 : Nat) * 1 ∧
    detRun ⟨1, 1, [5]⟩ 0 0 (1 * 1 + 1) (detInit ⟨1, 1, [5]⟩) = some (.error .indexError) :=
  ⟨by decide, (det_loop_never_returns ⟨1, 1, [5]⟩ 0 0 (by decide)).1⟩

/-- A value found in a well-formed dict is well-formed. -/
theorem wf_of_lookup {V : Type} {k : String} :
    ∀ {l : List (String × PyVal V)} {val : PyVal V},
      pyLookup k l = some val → WFList l → WFE val := by
  intro l
  induction l with
  | nil =>
    intro val h
    exact fun _ => Option.noConfusion h
  | cons p t ih =>
    intro val h hwf
    obtain ⟨k', v⟩ := p
    unfold pyLookup at h
    split at h
    · have hv : v = val := Option.some.inj h
      rw [← hv]
      exact hwf (k', v) (List.mem_cons_self _ _)
    · exact ih h fun q hq => hwf q (List.mem_cons_of_mem _ hq)

/-- Descending from a well-formed dict, `setPath` always succeeds. -/
theorem setPath_wf_ok {V : Type} :
    ∀ (ks : List String) (l : List (String × PyVal V)) (last : String) (v : PyVal V),
      WFList l → ∃ l', setPath l ks last v = .ok l' := by
  intro ks
  induction ks with
  | nil =>
    intro l last v _
    exact ⟨insertKV l last v, rfl⟩
  | cons k ks ih =>
    intro l last v hwf
    cases hlk : pyLookup k l with
    | none =>
      obtain ⟨inner', h'⟩ := ih [] last v fun _ hp => nomatch hp
      refine ⟨insertKV l k (.mdDictInst (.pydict inner')), ?_⟩
      unfold setPath
      rw [hlk, h']
      rfl
    | some val =>
      have hv : WFE val := wf_of_lookup hlk hwf
      cases hv with
      | leaf a =>
        obtain ⟨inner', h'⟩ := ih [] last v fun _ hp => nomatch hp
        refine ⟨insertKV l k (.mdDictInst (.pydict inner')), ?_⟩
        unfold setPath
        rw [hlk, h']
        rfl
      | branch inner hinner =>
        obtain ⟨inner', h'⟩ := ih inner last v hinner
        refine ⟨insertKV l k (.mdDictInst (.pydict inner')), ?_⟩
        unfold setPath
        rw [hlk]
        show wrapChild l k (setPath inner ks last v)
          = Except.ok (insertKV l k (PyVal.mdDictInst (PyVal.pydict inner')))
        rw [h']
        rfl

/-- C9: from any state the class's own operations can build, assigning
through a dotted key never raises the `KeyError("trying to use a leaf
node as a branch")` — the assignment always succeeds — and when the first
path segment names an existing `md_value` leaf, the result silently
replaces that leaf with a fresh branch. -/
theorem md_setitem_leaf_branch_unreachable {V : Type} (l : List (String × PyVal V))
    (ks : List String) (last : String) (v : PyVal V) (hwf : WFList l) :
    setPath l ks last v ≠ .error .leafAsBranch ∧
    (∃ l', setPath l ks last v = .ok l') ∧
    ∀ (k : String) (ks' : List String) (a : V), ks = k :: ks' → pyLookup k l = some (.mdval a) →
      ∃ sub, setPath l ks last v = .ok (insertKV l k (.mdDictInst (.pydict sub))) := by
  obtain ⟨l', h'⟩ := setPath_wf_ok ks l last v hwf
  refine ⟨by rw [h']; exact fun hc => Except.noConfusion hc, ⟨l', h'⟩, ?_⟩
  rintro k ks' a rfl hlk
  obtain ⟨inner', hin⟩ := setPath_wf_ok ks' ([] : List (String × PyVal V)) last v
    fun _ hp => nomatch hp
  refine ⟨inner', ?_⟩
  unfold setPath
  rw [hlk, hin]
  rfl

/-- C9 witness: a single-entry dict whose only value is a leaf, assigned
through the path `x.y`: no error, and `x` becomes a branch. -/
theorem md_setitem_leaf_branch_unreachable_witness :
    WFList [("x", PyVal.mdval (1 : Nat))] ∧
    setPath [("x", PyVal.mdval (1 : Nat))] ["x"] "y" (PyVal.mdval 2) ≠ .error .leafAsBranch :=
  have hwf : WFList [("x", PyVal.mdval (1 : Nat))] := by
    intro p hp
    rw [List.mem_singleton] at hp
    rw [hp]
    exact WFE.leaf 1
  ⟨hwf, (md_setitem_leaf_branch_unreachable _ ["x"] "y" (PyVal.mdval 2) hwf).1⟩

/-- In the final `mask * ~too_low * ~too_hi` product, a pixel that is
false in the (combined) mask stays false. -/
theorem zipWith3_first_false (xs ys zs : List Bool) :
    ∀ i : Nat, xs.getD i false = false →
      (zipWith3 (fun a b c => a && !b && !c) xs ys zs).getD i false = false := by
  induction xs generalizing ys zs with
  | nil =>
    intro i h
    cases ys <;> cases zs <;> simp [zipWith3]
  | cons a ta ih =>
    intro i h
    cases ys with
    | nil => simp [zipWith3]
    | cons b tb =>
      cases zs with
      | nil => simp [zipWith3]
      | cons c tc =>
        cases i with
        | zero =>
          simp only [List.getD_cons_zero] at h
          simp [zipWith3, h]
        | succ n =>
          simp only [zipWith3, List.getD_cons_succ] at h ⊢
          exact ih tb tc n h

/-- C4: whenever `ring_blur_mask` returns, the returned array has the
image's shape and its data is exactly
`mask * ~too_low * ~too_hi` over the combined mask; in particular a
pixel that is false in the combined mask is false in the output, so a
pass never re-includes a pixel. -/
theorem ring_blur_mask_output_conjunction (sqrtFn : ℚ → ℚ) (img q : Arr2 ℚ) (alpha : AlphaSpec)
    (bins : List ℚ) (mask? : Option (Arr2 Bool)) (m : Arr2 Bool)
    (h : ringBlurMask sqrtFn img q alpha bins mask? = .ok m) :
    m.rows = img.rows ∧ m.cols = img.cols ∧
    ∃ mask1 lower upper,
      rbmCombinedMask img mask? = .ok mask1 ∧
      m.data = zipWith3 (fun a b c => a && !b && !c) mask1.data
        (tooLowList img.data (q.data.map (intQ bins)) lower)
        (tooHighList img.data (q.data.map (intQ bins)) upper) ∧
      ∀ i : Nat, mask1.data.getD i false = false → m.data.getD i false = false := by
  unfold ringBlurMask at h
  split at h
  · exact Except.noConfusion h
  · rename_i mask1 hcm
    unfold rbmWithStats at h
    split at h
    · exact Except.noConfusion h
    · rename_i threshold hth
      split at h
      · exact Except.noConfusion h
      · rename_i lower hlo
        split at h
        · exact Except.noConfusion h
        · rename_i upper hup
          split at h
          · have hm := Except.ok.inj h
            subst hm
            refine ⟨rfl, rfl, mask1, lower, upper, hcm, rfl, ?_⟩
            intro i hfalse
            exact zipWith3_first_false _ _ _ i hfalse
          · exact Except.noConfusion h

/-- C4 witness: a 1×2 image where the pass keeps both pixels. -/
theorem ring_blur_mask_output_conjunction_witness :
    ringBlurMask (fun _ => 0) ⟨1, 2, [0, 0]⟩ ⟨1, 2, [3, 5]⟩ (.scalar 1) [0, 2, 4, 6] none
      = .ok ⟨1, 2, [true, true]⟩ ∧
    (⟨1, 2, [true, true]⟩ : Arr2 Bool).rows = 1 ∧
    (⟨1, 2, [true, true]⟩ : Arr2 Bool).cols = 2 := by
  have h : ringBlurMask (fun _ => 0) ⟨1, 2, [0, 0]⟩ ⟨1, 2, [3, 5]⟩ (.scalar 1) [0, 2, 4, 6] none
      = .ok ⟨1, 2, [true, true]⟩ := by decide
  have hc := ring_blur_mask_output_conjunction (fun _ => 0) ⟨1, 2, [0, 0]⟩ ⟨1, 2, [3, 5]⟩
    (.scalar 1) [0, 2, 4, 6] none ⟨1, 2, [true, true]⟩ h
  exact ⟨h, hc.1, hc.2.1⟩

/-- `np.std` of a bin whose variance is zero is zero, whatever exact
square root is in use, since `np.sqrt 0 = 0`. -/
theorem binnedStd_var_zeros (f : ℚ → ℚ) (hf : f 0 = 0) (edges xs ys : List ℚ)
    (h : binnedVar edges xs ys = [some 0, some 0]) :
    binnedStd f edges xs ys = [some 0, some 0] := by
  unfold binnedStd
  rw [h]
  simp [hf]

/-- Unfolding `ringBlurMask` once the combined mask and the std list are
known. -/
theorem ringBlurMask_std_rw (sqrtFn : ℚ → ℚ) (img q : Arr2 ℚ) (alpha : AlphaSpec)
    (bins : List ℚ) (mask? : Option (Arr2 Bool)) (mask1 : Arr2 Bool) (sl : List OQ)
    (hcm : rbmCombinedMask img mask? = .ok mask1)
    (hstd : binnedStd sqrtFn (bins.drop 1) (maskFilter q.data mask1.data)
      (maskFilter img.data mask1.data) = sl) :
    ringBlurMask sqrtFn img q alpha bins mask? =
      rbmWithStats img q alpha bins mask1
        (binnedMean (bins.drop 1) (maskFilter q.data mask1.data)
          (maskFilter img.data mask1.data)) sl := by
  unfold ringBlurMask
  rw [hcm, ← hstd]

/-- C1: a pixel whose `q` value lies outside the supplied bin range is
not left alone: `int_q` keeps its zero initialisation there, so the
pixel is thresholded against the statistics of stat bin 0 (the ring
`[bins[1], bins[2])`) and can be newly excluded.  Here the out-of-range
pixel 0 (`q = 9 ≥ bins[-1] = 6`, intensity 10) is excluded although the
starting combined mask is all-true. -/
theorem ring_blur_out_of_range_pixel_masked (sqrtFn : ℚ → ℚ) (hs : sqrtFn 0 = 0) :
    ringBlurMask sqrtFn ⟨1, 5, [10, 0, 0, 0, 0]⟩ ⟨1, 5, [9, 3, 3, 5, 5]⟩ (.scalar 1)
      [0, 2, 4, 6] none = .ok ⟨1, 5, [false, true, true, true, true]⟩ ∧
    rbmCombinedMask ⟨1, 5, [10, 0, 0, 0, 0]⟩ none
      = .ok ⟨1, 5, [true, true, true, true, true]⟩ ∧
    ([0, 2, 4, 6] : List ℚ).getD 3 0 ≤ 9 := by
  refine ⟨?_, by decide, by decide⟩
  have hcm : rbmCombinedMask ⟨1, 5, [10, 0, 0, 0, 0]⟩ none
      = .ok ⟨1, 5, [true, true, true, true, true]⟩ := by decide
  have hvar : binnedVar (([0, 2, 4, 6] : List ℚ).drop 1)
      (maskFilter ([9, 3, 3, 5, 5] : List ℚ) [true, true, true, true, true])
      (maskFilter ([10, 0, 0, 0, 0] : List ℚ) [true, true, true, true, true])
      = [some 0, some 0] := by decide
  have hstd := binnedStd_var_zeros sqrtFn hs _ _ _ hvar
  rw [ringBlurMask_std_rw sqrtFn ⟨1, 5, [10, 0, 0, 0, 0]⟩ ⟨1, 5, [9, 3, 3, 5, 5]⟩
    (.scalar 1) [0, 2, 4, 6] none ⟨1, 5, [true, true, true, true, true]⟩ [some 0, some 0] hcm hstd]
  decide

/-- C1 witness: the statement at the concrete square root `fun _ => 0`. -/
theorem ring_blur_out_of_range_pixel_masked_witness :
    ((fun _ : ℚ => (0 : ℚ)) 0 = 0) ∧
    ringBlurMask (fun _ => 0) ⟨1, 5, [10, 0, 0, 0, 0]⟩ ⟨1, 5, [9, 3, 3, 5, 5]⟩ (.scalar 1)
      [0, 2, 4, 6] none = .ok ⟨1, 5, [false, true, true, true, true]⟩ :=
  ⟨rfl, (ring_blur_out_of_range_pixel_masked (fun _ => 0) rfl).1⟩

/-- C2: the statistics a ring-0 pixel is thresholded against are not its
own ring's.  Ring 0 (`q ∈ [0, 2)`) holds the constant intensities
`[10, 10]` — mean 10, variance 0 — so under the claim its pixels (equal
to their ring mean) must survive; but `int_q = -1` sends them to the
LAST stat bin (`q ∈ [4, 6]`, mean 0), and they are excluded. -/
theorem ring_blur_ring0_thresholded_against_last_ring (sqrtFn : ℚ → ℚ) (hs : sqrtFn 0 = 0) :
    ringBlurMask sqrtFn ⟨1, 6, [10, 10, 10, 10, 0, 0]⟩ ⟨1, 6, [1, 1, 3, 3, 5, 5]⟩ (.scalar 1)
      [0, 2, 4, 6] none = .ok ⟨1, 6, [false, false, true, true, true, true]⟩ ∧
    specRingVals [10, 10, 10, 10, 0, 0] [1, 1, 3, 3, 5, 5] [true, true, true, true, true, true]
      [0, 2, 4, 6] 0 = [10, 10] ∧
    meanOf [10, 10] = 10 ∧ varOf [10, 10] = 0 := by
  refine ⟨?_, by decide, by decide, by decide⟩
  have hcm : rbmCombinedMask ⟨1, 6, [10, 10, 10, 10, 0, 0]⟩ none
      = .ok ⟨1, 6, [true, true, true, true, true, true]⟩ := by decide
  have hvar : binnedVar (([0, 2, 4, 6] : List ℚ).drop 1)
      (maskFilter ([1, 1, 3, 3, 5, 5] : List ℚ) [true, true, true, true, true, true])
      (maskFilter ([10, 10, 10, 10, 0, 0] : List ℚ) [true, true, true, true, true, true])
      = [some 0, some 0] := by decide
  have hstd := binnedStd_var_zeros sqrtFn hs _ _ _ hvar
  rw [ringBlurMask_std_rw sqrtFn ⟨1, 6, [10, 10, 10, 10, 0, 0]⟩ ⟨1, 6, [1, 1, 3, 3, 5, 5]⟩
    (.scalar 1) [0, 2, 4, 6] none ⟨1, 6, [true, true, true, true, true, true]⟩
    [some 0, some 0] hcm hstd]
  decide

/-- C2 witness: the statement at the concrete square root `fun _ => 0`. -/
theorem ring_blur_ring0_thresholded_against_last_ring_witness :
    ((fun _ : ℚ => (0 : ℚ)) 0 = 0) ∧
    ringBlurMask (fun _ => 0) ⟨1, 6, [10, 10, 10, 10, 0, 0]⟩ ⟨1, 6, [1, 1, 3, 3, 5, 5]⟩
      (.scalar 1) [0, 2, 4, 6] none = .ok ⟨1, 6, [false, false, true, true, true, true]⟩ :=
  ⟨rfl, (ring_blur_ring0_thresholded_against_last_ring (fun _ => 0) rfl).1⟩

/-- C7: a dataset already converged in the spec's sense — every ring is
constant, so every valid pixel equals its own ring's mean and lies within
`mean ± alpha·std` for any `alpha ≥ 0` — is still changed by one
application: the ring-0 pixels (value 5) are compared against the last
ring's statistics (mean 1, std 0) and newly excluded, so the output mask
differs from the input all-true mask and the pass is not a fixed point at
convergence. -/
theorem ring_blur_converged_not_fixed_point (sqrtFn : ℚ → ℚ) (hs : sqrtFn 0 = 0) :
    WithinOwnRingSq [5, 5, 5, 5, 1, 1] [1, 1, 3, 3, 5, 5] [true, true, true, true, true, true]
      [0, 2, 4, 6] 2 ∧
    rbmCombinedMask ⟨1, 6, [5, 5, 5, 5, 1, 1]⟩ none = .ok (allTrue 1 6) ∧
    ringBlurMask sqrtFn ⟨1, 6, [5, 5, 5, 5, 1, 1]⟩ ⟨1, 6, [1, 1, 3, 3, 5, 5]⟩ (.scalar 2)
      [0, 2, 4, 6] none = .ok ⟨1, 6, [false, false, true, true, true, true]⟩ ∧
    (⟨1, 6, [false, false, true, true, true, true]⟩ : Arr2 Bool) ≠ allTrue 1 6 := by
  refine ⟨?_, by decide, ?_, by decide⟩
  · unfold WithinOwnRingSq
    decide
  · have hcm : rbmCombinedMask ⟨1, 6, [5, 5, 5, 5, 1, 1]⟩ none
        = .ok ⟨1, 6, [true, true, true, true, true, true]⟩ := by decide
    have hvar : binnedVar (([0, 2, 4, 6] : List ℚ).drop 1)
        (maskFilter ([1, 1, 3, 3, 5, 5] : List ℚ) [true, true, true, true, true, true])
        (maskFilter ([5, 5, 5, 5, 1, 1] : List ℚ) [true, true, true, true, true, true])
        = [some 0, some 0] := by decide
    have hstd := binnedStd_var_zeros sqrtFn hs _ _ _ hvar
    rw [ringBlurMask_std_rw sqrtFn ⟨1, 6, [5, 5, 5, 5, 1, 1]⟩ ⟨1, 6, [1, 1, 3, 3, 5, 5]⟩
      (.scalar 2) [0, 2, 4, 6] none ⟨1, 6, [true, true, true, true, true, true]⟩
      [some 0, some 0] hcm hstd]
    decide

/-- C7 witness: the statement at the concrete square root `fun _ => 0`. -/
theorem ring_blur_converged_not_fixed_point_witness :
    ((fun _ : ℚ => (0 : ℚ)) 0 = 0) ∧
    ringBlurMask (fun _ => 0) ⟨1, 6, [5, 5, 5, 5, 1, 1]⟩ ⟨1, 6, [1, 1, 3, 3, 5, 5]⟩ (.scalar 2)
      [0, 2, 4, 6] none = .ok ⟨1, 6, [false, false, true, true, true, true]⟩ :=
  ⟨rfl, (ring_blur_converged_not_fixed_point (fun _ => 0) rfl).2.2.1⟩

end SkxRay
